import Mathlib

/-!
Shallow embedding of the culling / visibility geometry core of the
`adv-gfx-proj` renderer (TypeScript sources `Plane`, `AABB`, `Frustum`,
`TreeNode`, `MeshInstance`, `SSAOShaderProgram`).

Scalars are modelled as exact rationals (`ℚ`), the usual idealisation of
the JavaScript double arithmetic of the source.  `Math.sqrt`, which `ℚ`
does not contain, is threaded through as an explicit function parameter
`sqrt : ℚ → ℚ` into the few operations whose source calls it
(`vec3.normalize` and its callers); every theorem about those operations
holds for an arbitrary `sqrt`, hence in particular for the real square
root.  All definitions are computable so that concrete runs can be
checked with `decide`.
-/

/-- A 3-component vector, the embedding of a gl-matrix `vec3`. -/
structure Vec3 where
  x : ℚ
  y : ℚ
  z : ℚ
deriving DecidableEq, Repr

/-- A 4-component vector, the embedding of a gl-matrix `vec4`. -/
structure Vec4 where
  x : ℚ
  y : ℚ
  z : ℚ
  w : ℚ
deriving DecidableEq, Repr

namespace Vec3

/-- gl-matrix `vec3.dot`. -/
def dot (a b : Vec3) : ℚ :=
  a.x * b.x + a.y * b.y + a.z * b.z

/-- gl-matrix `vec3.subtract`. -/
def sub (a b : Vec3) : Vec3 :=
  ⟨a.x - b.x, a.y - b.y, a.z - b.z⟩

/-- gl-matrix `vec3.add`. -/
def add (a b : Vec3) : Vec3 :=
  ⟨a.x + b.x, a.y + b.y, a.z + b.z⟩

/-- gl-matrix `vec3.scale`. -/
def scale (a : Vec3) (s : ℚ) : Vec3 :=
  ⟨a.x * s, a.y * s, a.z * s⟩

/-- gl-matrix `vec3.negate`. -/
def neg (a : Vec3) : Vec3 :=
  ⟨-a.x, -a.y, -a.z⟩

/-- gl-matrix `vec3.cross`. -/
def cross (a b : Vec3) : Vec3 :=
  ⟨a.y * b.z - a.z * b.y, a.z * b.x - a.x * b.z, a.x * b.y - a.y * b.x⟩

/-- gl-matrix `vec3.min` (componentwise minimum). -/
def vmin (a b : Vec3) : Vec3 :=
  ⟨min a.x b.x, min a.y b.y, min a.z b.z⟩

/-- gl-matrix `vec3.max` (componentwise maximum). -/
def vmax (a b : Vec3) : Vec3 :=
  ⟨max a.x b.x, max a.y b.y, max a.z b.z⟩

/-- gl-matrix `vec3.normalize`: `len = x*x + y*y + z*z`;
if `len > 0` the scale factor becomes `1 / Math.sqrt(len)`, otherwise the
(zero) `len` itself is used; the vector is scaled componentwise.
`Math.sqrt` is taken as the explicit parameter `sqrt`. -/
def normalize (sqrt : ℚ → ℚ) (a : Vec3) : Vec3 :=
  let len := a.x * a.x + a.y * a.y + a.z * a.z
  let s := if 0 < len then 1 / sqrt len else len
  ⟨a.x * s, a.y * s, a.z * s⟩

/-- Component projection used to state per-axis properties uniformly. -/
def nth (a : Vec3) : Fin 3 → ℚ
  | 0 => a.x
  | 1 => a.y
  | 2 => a.z

end Vec3

/-- gl-matrix `vec4.dot`. -/
def Vec4.dot (a b : Vec4) : ℚ :=
  a.x * b.x + a.y * b.y + a.z * b.z + a.w * b.w

/-- A 3×3 matrix in gl-matrix column-major storage order
(`fromValues(m00,m01,m02,m10,m11,m12,m20,m21,m22)` stores the nine
entries sequentially). -/
structure Mat3 where
  a0 : ℚ
  a1 : ℚ
  a2 : ℚ
  a3 : ℚ
  a4 : ℚ
  a5 : ℚ
  a6 : ℚ
  a7 : ℚ
  a8 : ℚ
deriving DecidableEq, Repr

/-- gl-matrix `mat3.determinant`:
`a00*(a22*a11 - a12*a21) + a01*(-a22*a10 + a12*a20) + a02*(a21*a10 - a11*a20)`
where `aij` is entry `a[i*3+j]` of the storage. -/
def Mat3.determinant (m : Mat3) : ℚ :=
  m.a0 * (m.a8 * m.a4 - m.a5 * m.a7) +
  m.a1 * (-(m.a8 * m.a3) + m.a5 * m.a6) +
  m.a2 * (m.a7 * m.a3 - m.a4 * m.a6)

/-- A 3D plane with normal `n` and plane constant `d` (`Plane.ts`). -/
structure Plane where
  n : Vec3
  d : ℚ
deriving DecidableEq, Repr

namespace Plane

/-- Source `Plane.fromNormalAndPoint(n, p)`: returns `new Plane(n, vec3.dot(n, p))`. -/
def fromNormalAndPoint (n p : Vec3) : Plane :=
  ⟨n, Vec3.dot n p⟩

/-- Source `Plane.from3Points(p0, p1, p2)`: `n = normalize(cross(p1 - p0, p2 - p0))`,
`d = dot(n, p0)`. -/
def from3Points (sqrt : ℚ → ℚ) (p0 p1 p2 : Vec3) : Plane :=
  let v := Vec3.sub p1 p0
  let u := Vec3.sub p2 p0
  let n := Vec3.normalize sqrt (Vec3.cross v u)
  ⟨n, Vec3.dot n p0⟩

/-- Source `Plane.distanceToPoint(p)`: `n[0]*p[0] + n[1]*p[1] + n[2]*p[2] + d`. -/
def distanceToPoint (pl : Plane) (p : Vec3) : ℚ :=
  pl.n.x * p.x + pl.n.y * p.y + pl.n.z * p.z + pl.d

/-- Source `Plane.intersectionOf3Planes(p1, p2, p3)` (Goldman's method, Graphics
Gems p. 305): build the matrix of the three normals, return `false`
(`none`) when its determinant is zero, otherwise
`-(d1*(n2×n3) + d2*(n3×n1) + d3*(n1×n2)) / det`. -/
def intersectionOf3Planes (p1 p2 p3 : Plane) : Option Vec3 :=
  let m : Mat3 := ⟨p1.n.x, p2.n.x, p3.n.x, p1.n.y, p2.n.y, p3.n.y, p1.n.z, p2.n.z, p3.n.z⟩
  let det := m.determinant
  if det = 0 then
    none
  else
    let temp1 := Vec3.scale (Vec3.cross p2.n p3.n) p1.d
    let temp2 := Vec3.scale (Vec3.cross p3.n p1.n) p2.d
    let temp3 := Vec3.scale (Vec3.cross p1.n p2.n) p3.d
    some (Vec3.neg (Vec3.scale (Vec3.add (Vec3.add temp1 temp2) temp3) (1 / det)))

/-- Source `Plane.intersectLine(p1, p2)` (Lengyel p. 99): normalize the segment
direction, form the homogeneous plane `L = (n, d)`, start point
`S = (p1, 1)` and direction `V = (dir, 0)`; if `dot(L,V) = 0` return
`false` (`none`), else return `p1 + (-(dot(L,S))/dot(L,V)) * dir`. -/
def intersectLine (sqrt : ℚ → ℚ) (pl : Plane) (p1 p2 : Vec3) : Option Vec3 :=
  let temp := Vec3.normalize sqrt (Vec3.sub p2 p1)
  let L : Vec4 := ⟨pl.n.x, pl.n.y, pl.n.z, pl.d⟩
  let S : Vec4 := ⟨p1.x, p1.y, p1.z, 1⟩
  let V : Vec4 := ⟨temp.x, temp.y, temp.z, 0⟩
  let denom := Vec4.dot L V
  if denom = 0 then
    none
  else
    let t := -(Vec4.dot L S / denom)
    some (Vec3.add p1 (Vec3.scale temp t))

/-- Vertex classification step of `Plane.clipConvexPolygon`: the signed
distance is snapped to `0` when it lies in `(0, 0.001]`, to `1` when it
is larger, and to `-1` otherwise (the code overwrites the `dist` field
with these sentinel numbers). -/
def classify (pl : Plane) (v : Vec3) : ℚ :=
  let dist := pl.distanceToPoint v
  if 0 < dist ∧ dist ≤ 1/1000 then 0
  else if 0 < dist then 1
  else -1

/-- Contribution of one wrapped pair of consecutive classified vertices in
the `clipConvexPolygon` loop: keep `pi` when it is not strictly outside,
and insert the plane/segment intersection when the pair straddles the
plane (skipping it when `intersectLine` reports no intersection). -/
def clipPairStep (sqrt : ℚ → ℚ) (pl : Plane) (pr : (Vec3 × ℚ) × (Vec3 × ℚ)) : List Vec3 :=
  let ci := pr.1.2
  let cj := pr.2.2
  let pi := pr.1.1
  let pj := pr.2.1
  (if ci ≠ 1 then [pi] else []) ++
    (if (ci ≠ 1 ∧ cj = 1) ∨ (ci = 1 ∧ cj ≠ 1) then
      match intersectLine sqrt pl pi pj with
      | some q => [q]
      | none => []
    else [])

/-- Source `Plane.clipConvexPolygon(vertices)` (Sutherland–Hodgman with an
on-plane band, Lengyel pp. 236–238): classify every vertex; if all are
strictly outside return `false` (`none`); otherwise walk each pair of
consecutive vertices in the loop (index `i` paired with `i+1`, the last
with the first — modelled by zipping with the list rotated by one) and
collect kept and inserted vertices. -/
def clipConvexPolygon (sqrt : ℚ → ℚ) (pl : Plane) (vertices : List Vec3) : Option (List Vec3) :=
  let classified := vertices.map (fun v => (v, pl.classify v))
  let allOutside := classified.all (fun c => c.2 = 1)
  if allOutside then
    none
  else
    some ((classified.zip (classified.rotate 1)).flatMap (clipPairStep sqrt pl))

end Plane

/-- Enum for intersection test results (`AABB.ts`). -/
inductive Intersection where
  | OUTSIDE
  | INSIDE
  | INTERSECTING
deriving DecidableEq, Repr

/-- An axis-aligned bounding box (`AABB.ts`). -/
structure AABB where
  min : Vec3
  max : Vec3
deriving DecidableEq, Repr

/-- Constant `Number.MAX_VALUE`, the largest finite double: `(2^53 - 1) * 2^971`. -/
def numberMaxValue : ℚ := (2 ^ 53 - 1) * 2 ^ 971

/-- Constant `Number.MIN_VALUE`, the smallest positive double: `2^(-1074)`.  Note
that it is a tiny *positive* number, not a large negative one. -/
def numberMinValue : ℚ := 1 / 2 ^ 1074

namespace AABB

/-- Source `AABB.createEmpty()`: `min = (+MAX_VALUE)³`, `max = (-MAX_VALUE)³`. -/
def createEmpty : AABB :=
  ⟨⟨numberMaxValue, numberMaxValue, numberMaxValue⟩,
   ⟨-numberMaxValue, -numberMaxValue, -numberMaxValue⟩⟩

/-- Source `AABB.center()`: `(max + min) * 0.5`. -/
def center (b : AABB) : Vec3 :=
  Vec3.scale (Vec3.add b.max b.min) (1/2)

/-- Source `AABB.halfDiagonal()`: `(max - min) * 0.5`. -/
def halfDiagonal (b : AABB) : Vec3 :=
  Vec3.scale (Vec3.sub b.max b.min) (1/2)

/-- Source `AABB.merge(a, b)`: componentwise min of mins, max of maxes. -/
def merge (a b : AABB) : AABB :=
  ⟨Vec3.vmin a.min b.min, Vec3.vmax a.max b.max⟩

/-- Source `AABB.corners()`: the 8 corners, `x` slowest and `z` fastest, each
coordinate drawn from `{min, max}` in that order. -/
def corners (b : AABB) : List Vec3 :=
  [b.min.x, b.max.x].flatMap fun x =>
    [b.min.y, b.max.y].flatMap fun y =>
      [b.min.z, b.max.z].map fun z => (⟨x, y, z⟩ : Vec3)

/-- Source `AABB.containsPoint(v)`: `v` is within the closed bounds. -/
def containsPoint (b : AABB) (v : Vec3) : Bool :=
  v.x ≥ b.min.x && v.x ≤ b.max.x &&
  v.y ≥ b.min.y && v.y ≤ b.max.y &&
  v.z ≥ b.min.z && v.z ≤ b.max.z

/-- Source `AABB.doesRayIntersect(origin, dir)` (Tavian Barnes' branchless slab
test): starts with `tmin = Number.MIN_VALUE`, `tmax = Number.MAX_VALUE`,
updates them from the X slab and the Y slab whenever the corresponding
direction component exceeds `1e-7` in magnitude, and returns
`tmax >= tmin`.  The Z slab is never examined. -/
def doesRayIntersect (b : AABB) (origin dir : Vec3) : Bool :=
  let tmin0 : ℚ := numberMinValue
  let tmax0 : ℚ := numberMaxValue
  let epsilon : ℚ := 1/10000000
  let tmin1 := if |dir.x| > epsilon then
      Max.max tmin0 (Min.min ((b.min.x - origin.x) / dir.x) ((b.max.x - origin.x) / dir.x))
    else tmin0
  let tmax1 := if |dir.x| > epsilon then
      Min.min tmax0 (Max.max ((b.min.x - origin.x) / dir.x) ((b.max.x - origin.x) / dir.x))
    else tmax0
  let tmin2 := if |dir.y| > epsilon then
      Max.max tmin1 (Min.min ((b.min.y - origin.y) / dir.y) ((b.max.y - origin.y) / dir.y))
    else tmin1
  let tmax2 := if |dir.y| > epsilon then
      Min.min tmax1 (Max.max ((b.min.y - origin.y) / dir.y) ((b.max.y - origin.y) / dir.y))
    else tmax1
  tmax2 ≥ tmin2

/-- Source `AABB.planeIntersect(plane)` (Real Time Rendering p. 756): extent
`e = h·|n|`, signed center distance `s = dot(c, n) + d`; `OUTSIDE` when
`s - e > 0`, `INSIDE` when `s + e < 0`, otherwise `INTERSECTING`. -/
def planeIntersect (b : AABB) (pl : Plane) : Intersection :=
  let c := b.center
  let h := b.halfDiagonal
  let e := h.x * |pl.n.x| + h.y * |pl.n.y| + h.z * |pl.n.z|
  let s := Vec3.dot c pl.n + pl.d
  if s - e > 0 then Intersection.OUTSIDE
  else if s + e < 0 then Intersection.INSIDE
  else Intersection.INTERSECTING

/-- Box containment used to express the hierarchy invariant: `a` contains
`b` when `a.min ≤ b.min` and `b.max ≤ a.max` componentwise. -/
def containsBox (a b : AABB) : Bool :=
  a.min.x ≤ b.min.x && a.min.y ≤ b.min.y && a.min.z ≤ b.min.z &&
  b.max.x ≤ a.max.x && b.max.y ≤ a.max.y && b.max.z ≤ a.max.z

end AABB

/-- A frustum of six planes (`Frustum.ts`).  The constructor stores the
planes in the order left, right, bottom, top, near, far (and normalizes
each; normalization only rescales every plane equation by a positive
factor and is immaterial to every property proved here, so the planes are
taken as given). -/
structure Frustum where
  left : Plane
  right : Plane
  bottom : Plane
  top : Plane
  near : Plane
  far : Plane
deriving DecidableEq, Repr

/-- The `planes` array built by the `Frustum` constructor. -/
def Frustum.planes (f : Frustum) : List Plane :=
  [f.left, f.right, f.bottom, f.top, f.near, f.far]

/-- Loop body of `Frustum.aabbIntersect`: walk the plane list, return
`OUTSIDE` as soon as any plane classifies the box `OUTSIDE`, remember in
`intersecting` whether any plane classified it `INTERSECTING`, and at the
end return `INTERSECTING` or `INSIDE` accordingly. -/
def aabbIntersectLoop (b : AABB) : List Plane → Bool → Intersection
  | [], intersecting => if intersecting then Intersection.INTERSECTING else Intersection.INSIDE
  | p :: ps, intersecting =>
    match b.planeIntersect p with
    | Intersection.OUTSIDE => Intersection.OUTSIDE
    | Intersection.INTERSECTING => aabbIntersectLoop b ps true
    | Intersection.INSIDE => aabbIntersectLoop b ps intersecting

/-- Source `Frustum.aabbIntersect(aabb)` (Real Time Rendering p. 777). -/
def Frustum.aabbIntersect (f : Frustum) (b : AABB) : Intersection :=
  aabbIntersectLoop b f.planes false

/-- A point lies in the (closed) frustum volume when it is on the
non-positive side of every frustum plane — the system's convention points
plane normals toward the outside, so inside means negative signed
distance. -/
def Frustum.containsPt (f : Frustum) (p : Vec3) : Prop :=
  ∀ pl ∈ f.planes, pl.distanceToPoint p ≤ 0

instance (f : Frustum) (p : Vec3) : Decidable (f.containsPt p) := by
  unfold Frustum.containsPt
  infer_instance

/-- A quaternion (gl-matrix `quat`, stored as x, y, z, w). -/
structure Quat where
  x : ℚ
  y : ℚ
  z : ℚ
  w : ℚ
deriving DecidableEq, Repr

/-- A 4×4 matrix in gl-matrix column-major flat storage `m0 .. m15`. -/
structure Mat4 where
  m0 : ℚ
  m1 : ℚ
  m2 : ℚ
  m3 : ℚ
  m4 : ℚ
  m5 : ℚ
  m6 : ℚ
  m7 : ℚ
  m8 : ℚ
  m9 : ℚ
  m10 : ℚ
  m11 : ℚ
  m12 : ℚ
  m13 : ℚ
  m14 : ℚ
  m15 : ℚ
deriving DecidableEq, Repr

/-- gl-matrix `mat4.fromRotationTranslationScale(q, v, s)`: rotation
matrix from the quaternion, columns scaled by `s`, translation in the
last column. -/
def Mat4.fromRotationTranslationScale (q : Quat) (v s : Vec3) : Mat4 :=
  let x2 := q.x + q.x
  let y2 := q.y + q.y
  let z2 := q.z + q.z
  let xx := q.x * x2
  let xy := q.x * y2
  let xz := q.x * z2
  let yy := q.y * y2
  let yz := q.y * z2
  let zz := q.z * z2
  let wx := q.w * x2
  let wy := q.w * y2
  let wz := q.w * z2
  ⟨(1 - (yy + zz)) * s.x, (xy + wz) * s.x, (xz - wy) * s.x, 0,
   (xy - wz) * s.y, (1 - (xx + zz)) * s.y, (yz + wx) * s.y, 0,
   (xz + wy) * s.z, (yz - wx) * s.z, (1 - (xx + yy)) * s.z, 0,
   v.x, v.y, v.z, 1⟩

/-- gl-matrix `vec3.transformMat4(a, m)`: homogeneous transform with
`w = m[3]*x + m[7]*y + m[11]*z + m[15]`, where a zero `w` falls back to
`1` (JavaScript `w || 1.0`), and division of the three result components
by `w`. -/
def Vec3.transformMat4 (a : Vec3) (m : Mat4) : Vec3 :=
  let w0 := m.m3 * a.x + m.m7 * a.y + m.m11 * a.z + m.m15
  let w := if w0 = 0 then 1 else w0
  ⟨(m.m0 * a.x + m.m4 * a.y + m.m8 * a.z + m.m12) / w,
   (m.m1 * a.x + m.m5 * a.y + m.m9 * a.z + m.m13) / w,
   (m.m2 * a.x + m.m6 * a.y + m.m10 * a.z + m.m14) / w⟩

/-- The instance-private data of a `MeshInstance`: its transform
(position, rotation quaternion, scale) together with the vertex list of
its shared mesh data (`this.data.vertices`), which is all
`MeshInstance.updateBounds` reads. -/
structure MeshInst where
  position : Vec3
  rotation : Quat
  scale : Vec3
  vertices : List Vec3
deriving DecidableEq, Repr

/-- Vertex loop of `MeshInstance.updateBounds`: transform each vertex to
world coordinates and fold it into the running componentwise `max` and
`min` (in that order, as the source does). -/
def meshBoundsLoop (m : Mat4) : List Vec3 → Vec3 → Vec3 → Vec3 × Vec3
  | [], mx, mn => (mx, mn)
  | v :: vs, mx, mn =>
    let temp := v.transformMat4 m
    meshBoundsLoop m vs (Vec3.vmax mx temp) (Vec3.vmin mn temp)

/-- Source `MeshInstance.updateBounds()`: build the model matrix from rotation,
position and scale, reset `aabb.max` to `(Number.MIN_VALUE)³` and
`aabb.min` to `(Number.MAX_VALUE)³`, then fold every transformed mesh
vertex into them. -/
def MeshInst.updateBounds (inst : MeshInst) : AABB :=
  let mMatrix := Mat4.fromRotationTranslationScale inst.rotation inst.position inst.scale
  let start := meshBoundsLoop mMatrix inst.vertices
    ⟨numberMinValue, numberMinValue, numberMinValue⟩
    ⟨numberMaxValue, numberMaxValue, numberMaxValue⟩
  ⟨start.2, start.1⟩

/-- A node of the culling hierarchy.  `interior` embeds a plain
`TreeNode` (an AABB plus a list of children); `leaf` embeds a
`MeshInstance` (its current AABB, its transform and mesh data, and a
numeric identity distinguishing distinct instance objects). -/
inductive Node where
  | interior : AABB → List Node → Node
  | leaf : AABB → MeshInst → Nat → Node

/-- The stored `aabb` field of a node. -/
def Node.aabb : Node → AABB
  | .interior a _ => a
  | .leaf a _ _ => a

mutual

/-- Dispatch of `updateBounds()`: a `MeshInstance` leaf recomputes
its box from its transformed vertices; a `TreeNode` updates each child in
order and merges the child's new box into its own current box (the
source never resets the interior box before the loop). -/
def Node.updateBounds : Node → Node
  | .leaf _ inst i => .leaf inst.updateBounds inst i
  | .interior a cs =>
    let r := updateBoundsLoop a cs
    .interior r.1 r.2

/-- Child loop of `TreeNode.updateBounds`: for each child, update it,
then merge its new bounds into the accumulated own bounds. -/
def updateBoundsLoop (a : AABB) : List Node → AABB × List Node
  | [] => (a, [])
  | c :: cs =>
    let c2 := c.updateBounds
    let r := updateBoundsLoop (AABB.merge a c2.aabb) cs
    (r.1, c2 :: r.2)

end

mutual

/-- Dispatch of `appendVisibleSet(frustum, drawAll, visibleSet)`,
modelled as the list of `MeshInstance` leaves pushed onto `visibleSet`.
A leaf re-tests its own box unless `drawAll` is already set, and pushes
itself unless the test said `OUTSIDE`; an interior node likewise tests
its box, prunes on `OUTSIDE`, promotes `drawAll` on `INSIDE`, and
recurses into its children. -/
def Node.appendVisibleSet (f : Frustum) (drawAll : Bool) : Node → List Node
  | .leaf a inst i =>
    if drawAll then [.leaf a inst i]
    else
      match f.aabbIntersect a with
      | Intersection.OUTSIDE => []
      | _ => [.leaf a inst i]
  | .interior a cs =>
    if drawAll then appendVisibleList f true cs
    else
      match f.aabbIntersect a with
      | Intersection.OUTSIDE => []
      | Intersection.INSIDE => appendVisibleList f true cs
      | Intersection.INTERSECTING => appendVisibleList f false cs

/-- Child loop of `TreeNode.appendVisibleSet`. -/
def appendVisibleList (f : Frustum) (drawAll : Bool) : List Node → List Node
  | [] => []
  | c :: cs => c.appendVisibleSet f drawAll ++ appendVisibleList f drawAll cs

end

mutual

/-- The `MeshInstance` leaves of a hierarchy, in traversal order. -/
def Node.leaves : Node → List Node
  | .leaf a inst i => [.leaf a inst i]
  | .interior _ cs => leavesList cs

/-- Leaves of a list of sibling subtrees. -/
def leavesList : List Node → List Node
  | [] => []
  | c :: cs => c.leaves ++ leavesList cs

end

/-- The identity of a node when it is a leaf (junk value `0` on interior
nodes, which never enter leaf lists). -/
def Node.leafId : Node → Nat
  | .leaf _ _ i => i
  | .interior _ _ => 0

/-- The identities of all leaves of a hierarchy. -/
def Node.leafIds (t : Node) : List Nat :=
  t.leaves.map Node.leafId

mutual

/-- The hierarchy containment invariant assumed by the culling traversal:
every interior node's box contains each of its children's boxes (hence,
by transitivity, the boxes of all its descendants). -/
def Node.boundsOK : Node → Bool
  | .leaf _ _ _ => true
  | .interior a cs => boundsOKList a cs

/-- Containment invariant for a list of children under box `a`. -/
def boundsOKList (a : AABB) : List Node → Bool
  | [] => true
  | c :: cs => AABB.containsBox a c.aabb && c.boundsOK && boundsOKList a cs

end

mutual

/-- Whether the subtree rooted here has a leaf with identity `i`. -/
def Node.hasLeafId (i : Nat) : Node → Bool
  | .leaf _ _ j => i == j
  | .interior _ cs => hasLeafIdList i cs

/-- List version of `Node.hasLeafId`. -/
def hasLeafIdList (i : Nat) : List Node → Bool
  | [] => false
  | c :: cs => c.hasLeafId i || hasLeafIdList i cs

end

mutual

/-- The leaf with identity `i` is classified `OUTSIDE` — either on its
own box or on an ancestor's box — at some point *actually evaluated*
during `appendVisibleSet(f, false, …)`: evaluation recurses past a node
only while the node classifies `INTERSECTING`, stops classifying below a
node that classifies `INSIDE`, and prunes below a node that classifies
`OUTSIDE`. -/
def Node.culled (f : Frustum) (i : Nat) : Node → Bool
  | .leaf a _ j => (f.aabbIntersect a == Intersection.OUTSIDE) && (i == j)
  | .interior a cs =>
    match f.aabbIntersect a with
    | Intersection.OUTSIDE => hasLeafIdList i cs
    | Intersection.INSIDE => false
    | Intersection.INTERSECTING => culledList f i cs

/-- List version of `Node.culled`. -/
def culledList (f : Frustum) (i : Nat) : List Node → Bool
  | [] => false
  | c :: cs => c.culled f i || culledList f i cs

end

/-- Which sample-kernel generator the `SSAOShaderProgram` constructor
invokes. -/
inductive KernelPath where
  | cubeCorner
  | randomSphere
deriving DecidableEq, Repr

namespace SSAOShaderProgram

/-- The generator choice made by the `SSAOShaderProgram` constructor:
`genCubeCornerVectors` when `numSamples` is 8, 16, 24 or 32, otherwise
`genRandomVectors` (whose output depends on `Math.random` and is not
needed by any property here). -/
def kernelPath (numSamples : ℚ) : KernelPath :=
  if numSamples = 8 ∨ numSamples = 16 ∨ numSamples = 24 ∨ numSamples = 32 then
    KernelPath.cubeCorner
  else
    KernelPath.randomSphere

/-- The eight cube corners visited by the nested `x`/`y`/`z` loops of
`genCubeCornerVectors`, in source order. -/
def cubeCornerList : List Vec3 :=
  [(-1 : ℚ), 1].flatMap fun x =>
    [(-1 : ℚ), 1].flatMap fun y =>
      [(-1 : ℚ), 1].map fun z => (⟨x, y, z⟩ : Vec3)

/-- Inner corner loop of `genCubeCornerVectors`: for each corner `v`, the
running `offsetScale` is first multiplied by `offsetScaleStep`
(JavaScript `offsetScale *= offsetScaleStep`), `v` is normalized in place
and scaled by the new `offsetScale`, and its three components are pushed
onto `shaderVectors`.  Returns the pushed components and the final
`offsetScale`. -/
def cubeCornerLoop (sqrt : ℚ → ℚ) (step : ℚ) : List Vec3 → ℚ → List ℚ × ℚ
  | [], s => ([], s)
  | v :: vs, s =>
    let s2 := s * step
    let v2 := Vec3.scale (Vec3.normalize sqrt v) s2
    let r := cubeCornerLoop sqrt step vs s2
    (v2.x :: v2.y :: v2.z :: r.1, r.2)

/-- Outer iteration of `genCubeCornerVectors`: the corner pass is run
once per integer `i` with `i < numSamples / 8`, threading `offsetScale`
through the passes. -/
def cubeCornerIters (sqrt : ℚ → ℚ) (step : ℚ) : Nat → ℚ → List ℚ
  | 0, _ => []
  | k + 1, s =>
    let r := cubeCornerLoop sqrt step cubeCornerList s
    r.1 ++ cubeCornerIters sqrt step k r.2

/-- Source `SSAOShaderProgram.genCubeCornerVectors(numSamples)`: starting from
`offsetScale = 0.01` and `offsetScaleStep = 1 + 2.4 / numSamples`, run
the corner pass `⌈numSamples / 8⌉` times (the number of integers `i`
with `i < numSamples / 8`) and return the flat list of pushed
components, three per generated sample vector. -/
def genCubeCornerVectors (sqrt : ℚ → ℚ) (numSamples : ℚ) : List ℚ :=
  let offsetScale : ℚ := 1/100
  let offsetScaleStep : ℚ := 1 + (12/5) / numSamples
  cubeCornerIters sqrt offsetScaleStep (Nat.ceil (numSamples / 8)) offsetScale

end SSAOShaderProgram

/-- The extent `e` computed inside `AABB.planeIntersect`: the box
half-diagonal projected onto the componentwise absolute normal. -/
def AABB.planeExtent (b : AABB) (pl : Plane) : ℚ :=
  b.halfDiagonal.x * |pl.n.x| + b.halfDiagonal.y * |pl.n.y| + b.halfDiagonal.z * |pl.n.z|

/-- The signed center distance `s` computed inside `AABB.planeIntersect`. -/
def AABB.planeCenterDist (b : AABB) (pl : Plane) : ℚ :=
  Vec3.dot b.center pl.n + pl.d

/-- The positivity of `Number.MIN_VALUE` — the crux of the
`MeshInstance.updateBounds` initialization: the supposed "very small"
starting corner for the maximum is in fact strictly positive. -/
theorem numberMinValue_pos : 0 < numberMinValue := by
  unfold numberMinValue
  positivity

/-- C1: the spec requires `dot(normal, p) + offset = 0` for the defining
point of `Plane.fromNormalAndPoint(n, p)` and for the three defining
points of `Plane.from3Points`.  The code stores `offset = +dot(n, p)`
while `distanceToPoint` computes `dot(n, p) + offset`, so the defining
point has signed distance `2 * dot(n, p)`, which is nonzero whenever
`dot(n, p) ≠ 0`: at the failing input `n = p = (1,0,0)` the distance is
`2`, and for `from3Points` at `(0,0,1), (1,0,1), (0,1,1)` (plane `z = 1`,
where `Math.sqrt 1 = 1`) the distance of the first defining point is
also `2`, not `0`. -/
theorem C1_constructed_plane_misses_its_points :
    (∀ n p : Vec3, (Plane.fromNormalAndPoint n p).distanceToPoint p = 2 * Vec3.dot n p) ∧
    (Plane.fromNormalAndPoint ⟨1, 0, 0⟩ ⟨1, 0, 0⟩).distanceToPoint ⟨1, 0, 0⟩ = 2 ∧
    (∀ sqrt : ℚ → ℚ, sqrt 1 = 1 →
      (Plane.from3Points sqrt ⟨0, 0, 1⟩ ⟨1, 0, 1⟩ ⟨0, 1, 1⟩).distanceToPoint ⟨0, 0, 1⟩ = 2) := by
  refine ⟨?_, ?_, ?_⟩
  · intro n p
    simp only [Plane.fromNormalAndPoint, Plane.distanceToPoint, Vec3.dot]
    ring
  · norm_num [Plane.fromNormalAndPoint, Plane.distanceToPoint, Vec3.dot]
  · intro sqrt h1
    simp only [Plane.from3Points, Plane.distanceToPoint, Vec3.dot, Vec3.sub, Vec3.cross,
      Vec3.normalize]
    norm_num [h1]

/-- Witness for C1: the `from3Points` conjunct applied with the concrete
square-root function that is constantly `1`. -/
theorem C1_constructed_plane_misses_its_points_witness :
    (Plane.from3Points (fun _ => 1) ⟨0, 0, 1⟩ ⟨1, 0, 1⟩ ⟨0, 1, 1⟩).distanceToPoint ⟨0, 0, 1⟩ = 2 :=
  C1_constructed_plane_misses_its_points.2.2 (fun _ => 1) rfl

/-- C7: `AABB.doesRayIntersect` reads only the X and Y components of the
box corners, the ray origin and the ray direction, so two inputs that
agree on all X and Y components produce the same boolean result no
matter how their Z components differ — the Z slab is never tested. -/
theorem C7_doesRayIntersect_ignores_z
    (bnx bny bmx bmy ox oy dx dy bz1 bz2 oz dz bz3 bz4 oz2 dz2 : ℚ) :
    AABB.doesRayIntersect ⟨⟨bnx, bny, bz1⟩, ⟨bmx, bmy, bz2⟩⟩ ⟨ox, oy, oz⟩ ⟨dx, dy, dz⟩ =
    AABB.doesRayIntersect ⟨⟨bnx, bny, bz3⟩, ⟨bmx, bmy, bz4⟩⟩ ⟨ox, oy, oz2⟩ ⟨dx, dy, dz2⟩ := rfl

/-- C8: `Plane.intersectionOf3Planes` on the planes `x = 1`, `y = 1`,
`z = 1` (normals `(1,0,0)`, `(0,1,0)`, `(0,0,1)`, offsets `-1`) does not
report "no intersection" — the normal matrix has determinant `1` — and
returns exactly the point `(1, 1, 1)`. -/
theorem C8_axis_planes_meet_at_one_one_one :
    Plane.intersectionOf3Planes ⟨⟨1, 0, 0⟩, -1⟩ ⟨⟨0, 1, 0⟩, -1⟩ ⟨⟨0, 0, 1⟩, -1⟩ =
      some ⟨1, 1, 1⟩ := by
  norm_num [Plane.intersectionOf3Planes, Mat3.determinant, Vec3.cross, Vec3.scale, Vec3.add,
    Vec3.neg]

/-- Helper for C9: each pass of the corner loop pushes three components
per visited corner. -/
theorem cubeCornerLoop_length (sqrt : ℚ → ℚ) (step : ℚ) :
    ∀ (vs : List Vec3) (s : ℚ),
      (SSAOShaderProgram.cubeCornerLoop sqrt step vs s).1.length = 3 * vs.length := by
  intro vs
  induction vs with
  | nil => intro s; rfl
  | cons v vs ih =>
    intro s
    simp only [SSAOShaderProgram.cubeCornerLoop, List.length_cons, ih]
    ring

/-- C9: with `numSamples = 8` the `SSAOShaderProgram` constructor takes
the cube-corner path, and `genCubeCornerVectors` runs one pass over the
eight cube corners, emitting exactly 8 sample vectors (24 scalar
components) for any square-root function; with `numSamples = 10` the
constructor takes the random-sphere path; and the cube-corner path is
taken only for sample counts in `{8, 16, 24, 32}`, all of which are
multiples of 8. -/
theorem C9_ssao_kernel_paths :
    SSAOShaderProgram.kernelPath 8 = KernelPath.cubeCorner ∧
    (∀ sqrt : ℚ → ℚ, (SSAOShaderProgram.genCubeCornerVectors sqrt 8).length = 3 * 8) ∧
    SSAOShaderProgram.kernelPath 10 = KernelPath.randomSphere ∧
    (∀ q : ℚ, SSAOShaderProgram.kernelPath q = KernelPath.cubeCorner → ∃ k : ℕ, q = 8 * k) := by
  have h8 : SSAOShaderProgram.kernelPath 8 = KernelPath.cubeCorner := by
    norm_num [SSAOShaderProgram.kernelPath]
  have h10 : SSAOShaderProgram.kernelPath 10 = KernelPath.randomSphere := by
    norm_num [SSAOShaderProgram.kernelPath]
  refine ⟨h8, ?_, h10, ?_⟩
  · intro sqrt
    have hceil : Nat.ceil ((8 : ℚ) / 8) = 1 := by norm_num
    simp only [SSAOShaderProgram.genCubeCornerVectors, hceil, SSAOShaderProgram.cubeCornerIters,
      List.length_append, List.length_nil, cubeCornerLoop_length]
    rfl
  · intro q hq
    unfold SSAOShaderProgram.kernelPath at hq
    split at hq
    · rename_i h
      rcases h with h | h | h | h
      · exact ⟨1, by rw [h]; norm_num⟩
      · exact ⟨2, by rw [h]; norm_num⟩
      · exact ⟨3, by rw [h]; norm_num⟩
      · exact ⟨4, by rw [h]; norm_num⟩
    · cases hq

/-- Witness for C9: the multiples-of-8 conjunct applied at the concrete
kernel size 16. -/
theorem C9_ssao_kernel_paths_witness : ∃ k : ℕ, (16 : ℚ) = 8 * k :=
  C9_ssao_kernel_paths.2.2.2 16 (by norm_num [SSAOShaderProgram.kernelPath])

/-- Componentwise description of `vec3.max` through the axis projection. -/
theorem Vec3.nth_vmax (a b : Vec3) (i : Fin 3) :
    (Vec3.vmax a b).nth i = max (a.nth i) (b.nth i) := by
  fin_cases i <;> rfl

/-- Helper for C10: the running maximum of the vertex loop never drops
below its starting value on any axis. -/
theorem meshBoundsLoop_max_ge (m : Mat4) :
    ∀ (vs : List Vec3) (mx mn : Vec3) (i : Fin 3),
      mx.nth i ≤ (meshBoundsLoop m vs mx mn).1.nth i := by
  intro vs
  induction vs with
  | nil => intro mx mn i; exact le_refl _
  | cons v vs ih =>
    intro mx mn i
    refine le_trans ?_ (ih (Vec3.vmax mx (v.transformMat4 m)) (Vec3.vmin mn (v.transformMat4 m)) i)
    rw [Vec3.nth_vmax]
    exact le_max_left _ _

/-- Helper for C10: when every transformed vertex stays at or below the
running maximum on an axis, the loop leaves that axis of the maximum
unchanged. -/
theorem meshBoundsLoop_max_fixed (m : Mat4) :
    ∀ (vs : List Vec3) (mx mn : Vec3) (i : Fin 3),
      (∀ v ∈ vs, (v.transformMat4 m).nth i ≤ mx.nth i) →
      (meshBoundsLoop m vs mx mn).1.nth i = mx.nth i := by
  intro vs
  induction vs with
  | nil => intro mx mn i _; rfl
  | cons v vs ih =>
    intro mx mn i h
    have hv : (v.transformMat4 m).nth i ≤ mx.nth i := h v (List.mem_cons_self v vs)
    have hmax : (Vec3.vmax mx (v.transformMat4 m)).nth i = mx.nth i := by
      rw [Vec3.nth_vmax]
      exact max_eq_left hv
    rw [meshBoundsLoop]
    rw [ih (Vec3.vmax mx (v.transformMat4 m)) (Vec3.vmin mn (v.transformMat4 m)) i]
    · exact hmax
    · intro w hw
      rw [hmax]
      exact h w (List.mem_cons_of_mem v hw)

/-- C10: `MeshInstance.updateBounds` initializes the running maximum
corner to `Number.MIN_VALUE` — the smallest *positive* double — instead
of a large negative value, so after the update every component of
`aabb.max` is at least `Number.MIN_VALUE`; consequently, whenever every
transformed vertex has a strictly negative coordinate on some axis, the
computed `aabb.max` on that axis equals `Number.MIN_VALUE` (a positive
number) rather than the true vertex maximum (which is negative) on that
axis. -/
theorem C10_updateBounds_max_is_min_value (inst : MeshInst) :
    (∀ i : Fin 3, numberMinValue ≤ inst.updateBounds.max.nth i) ∧
    (∀ i : Fin 3,
      (∀ v ∈ inst.vertices,
        (v.transformMat4
          (Mat4.fromRotationTranslationScale inst.rotation inst.position inst.scale)).nth i < 0) →
      inst.updateBounds.max.nth i = numberMinValue) := by
  constructor
  · intro i
    have h := meshBoundsLoop_max_ge
      (Mat4.fromRotationTranslationScale inst.rotation inst.position inst.scale)
      inst.vertices ⟨numberMinValue, numberMinValue, numberMinValue⟩
      ⟨numberMaxValue, numberMaxValue, numberMaxValue⟩ i
    have hstart : (Vec3.mk numberMinValue numberMinValue numberMinValue).nth i = numberMinValue := by
      fin_cases i <;> rfl
    rw [hstart] at h
    exact h
  · intro i hneg
    have hstart : (Vec3.mk numberMinValue numberMinValue numberMinValue).nth i = numberMinValue := by
      fin_cases i <;> rfl
    have h := meshBoundsLoop_max_fixed
      (Mat4.fromRotationTranslationScale inst.rotation inst.position inst.scale)
      inst.vertices ⟨numberMinValue, numberMinValue, numberMinValue⟩
      ⟨numberMaxValue, numberMaxValue, numberMaxValue⟩ i ?_
    · rw [MeshInst.updateBounds]
      rw [h, hstart]
    · intro v hv
      rw [hstart]
      exact le_of_lt (lt_trans (hneg v hv) numberMinValue_pos)

/-- Witness for C10: a unit-transform instance whose single vertex is
`(-1, -2, -3)`; on the X axis all transformed vertices are negative, and
the computed maximum is `Number.MIN_VALUE`. -/
theorem C10_updateBounds_max_is_min_value_witness :
    (MeshInst.mk ⟨0, 0, 0⟩ ⟨0, 0, 0, 1⟩ ⟨1, 1, 1⟩ [⟨-1, -2, -3⟩]).updateBounds.max.nth 0 =
      numberMinValue := by
  refine (C10_updateBounds_max_is_min_value _).2 0 ?_
  intro v hv
  rcases List.mem_singleton.mp hv with rfl
  norm_num [Vec3.transformMat4, Mat4.fromRotationTranslationScale, Vec3.nth]

/-- C4 (amended): a `MeshInstance` leaf reached by the traversal appends
itself if and only if the inherited `drawAll` flag is already set or its
own AABB is not classified `OUTSIDE`; it is never subdivided further.
Appending is therefore *not* unconditional: with `drawAll = false` and an
`OUTSIDE` classification the leaf culls itself. -/
theorem C4_leaf_append_iff_not_culled (f : Frustum) (drawAll : Bool) (a : AABB)
    (inst : MeshInst) (i : Nat) :
    Node.appendVisibleSet f drawAll (.leaf a inst i) =
      (if drawAll = true ∨ f.aabbIntersect a ≠ Intersection.OUTSIDE then [.leaf a inst i]
       else []) := by
  cases drawAll with
  | true => simp [Node.appendVisibleSet]
  | false =>
    cases h : f.aabbIntersect a <;> simp [Node.appendVisibleSet, h]

/-- Counterexample to C4 as stated: a concrete frustum (six copies of
the plane with normal `(1,0,0)` through the origin) and the leaf box
`[1,2]³` lying strictly beyond it.  The leaf's `appendVisibleSet` method
is invoked with `drawAll = false`, classifies its own box `OUTSIDE`, and
returns without appending itself — so the leaf does *not* append itself
unconditionally whenever its method is invoked. -/
theorem C4_leaf_can_refuse_to_append :
    Frustum.aabbIntersect
        ⟨⟨⟨1, 0, 0⟩, 0⟩, ⟨⟨1, 0, 0⟩, 0⟩, ⟨⟨1, 0, 0⟩, 0⟩,
         ⟨⟨1, 0, 0⟩, 0⟩, ⟨⟨1, 0, 0⟩, 0⟩, ⟨⟨1, 0, 0⟩, 0⟩⟩
        ⟨⟨1, 1, 1⟩, ⟨2, 2, 2⟩⟩ = Intersection.OUTSIDE ∧
    Node.appendVisibleSet
        ⟨⟨⟨1, 0, 0⟩, 0⟩, ⟨⟨1, 0, 0⟩, 0⟩, ⟨⟨1, 0, 0⟩, 0⟩,
         ⟨⟨1, 0, 0⟩, 0⟩, ⟨⟨1, 0, 0⟩, 0⟩, ⟨⟨1, 0, 0⟩, 0⟩⟩
        false
        (.leaf ⟨⟨1, 1, 1⟩, ⟨2, 2, 2⟩⟩ ⟨⟨0, 0, 0⟩, ⟨0, 0, 0, 1⟩, ⟨1, 1, 1⟩, []⟩ 0) = [] := by
  have hout : Frustum.aabbIntersect
      ⟨⟨⟨1, 0, 0⟩, 0⟩, ⟨⟨1, 0, 0⟩, 0⟩, ⟨⟨1, 0, 0⟩, 0⟩,
       ⟨⟨1, 0, 0⟩, 0⟩, ⟨⟨1, 0, 0⟩, 0⟩, ⟨⟨1, 0, 0⟩, 0⟩⟩
      ⟨⟨1, 1, 1⟩, ⟨2, 2, 2⟩⟩ = Intersection.OUTSIDE := by
    norm_num [Frustum.aabbIntersect, Frustum.planes, aabbIntersectLoop, AABB.planeIntersect,
      AABB.center, AABB.halfDiagonal, Vec3.dot, Vec3.add, Vec3.sub, Vec3.scale]
  exact ⟨hout, by simp [Node.appendVisibleSet, hout]⟩

/-- Restatement of `AABB.planeIntersect` through the named extent and
center-distance quantities. -/
theorem AABB.planeIntersect_eq (b : AABB) (pl : Plane) :
    b.planeIntersect pl =
      (if b.planeCenterDist pl - b.planeExtent pl > 0 then Intersection.OUTSIDE
       else if b.planeCenterDist pl + b.planeExtent pl < 0 then Intersection.INSIDE
       else Intersection.INTERSECTING) := rfl

/-- Per-axis bound: a coordinate constrained to a slab bounds its normal
contribution between the center contribution plus/minus the projected
half-extent. -/
theorem slab_bound (n m M p : ℚ) (h1 : m ≤ p) (h2 : p ≤ M) :
    n * ((M + m) * (1/2)) - (M - m) * (1/2) * |n| ≤ n * p ∧
      n * p ≤ n * ((M + m) * (1/2)) + (M - m) * (1/2) * |n| := by
  rcases le_or_lt 0 n with hn | hn
  · rw [abs_of_nonneg hn]
    constructor <;> nlinarith
  · rw [abs_of_neg hn]
    constructor <;> nlinarith

/-- Unfolding of the boolean `AABB.containsPoint` into its six
inequalities. -/
theorem AABB.containsPoint_iff (b : AABB) (p : Vec3) :
    b.containsPoint p = true ↔
      (b.min.x ≤ p.x ∧ p.x ≤ b.max.x) ∧ (b.min.y ≤ p.y ∧ p.y ≤ b.max.y) ∧
        (b.min.z ≤ p.z ∧ p.z ≤ b.max.z) := by
  simp only [AABB.containsPoint, Bool.and_eq_true, decide_eq_true_eq, ge_iff_le]
  tauto

/-- The signed distance of any point of a box to a plane lies between
`s - e` and `s + e`. -/
theorem AABB.dist_bounds_of_mem (b : AABB) (pl : Plane) (p : Vec3)
    (hp : b.containsPoint p = true) :
    b.planeCenterDist pl - b.planeExtent pl ≤ pl.distanceToPoint p ∧
      pl.distanceToPoint p ≤ b.planeCenterDist pl + b.planeExtent pl := by
  rw [AABB.containsPoint_iff] at hp
  obtain ⟨⟨hx1, hx2⟩, ⟨hy1, hy2⟩, hz1, hz2⟩ := hp
  have hx := slab_bound pl.n.x b.min.x b.max.x p.x hx1 hx2
  have hy := slab_bound pl.n.y b.min.y b.max.y p.y hy1 hy2
  have hz := slab_bound pl.n.z b.min.z b.max.z p.z hz1 hz2
  simp only [AABB.planeCenterDist, AABB.planeExtent, AABB.center, AABB.halfDiagonal,
    Plane.distanceToPoint, Vec3.dot, Vec3.add, Vec3.sub, Vec3.scale] at *
  constructor
  · have := hx.1
    have := hy.1
    have := hz.1
    nlinarith [hx.1, hy.1, hz.1]
  · nlinarith [hx.2, hy.2, hz.2]

/-- Choosing the box face on the side the normal points away from
realizes the lower bound `s - e` axis by axis. -/
theorem pick_low (n m M : ℚ) :
    n * (if 0 ≤ n then m else M) = n * ((M + m) * (1/2)) - (M - m) * (1/2) * |n| := by
  split_ifs with h
  · rw [abs_of_nonneg h]
    ring
  · rw [abs_of_neg (lt_of_not_le h)]
    ring

/-- Choosing the box face on the side the normal points toward realizes
the upper bound `s + e` axis by axis. -/
theorem pick_high (n m M : ℚ) :
    n * (if 0 ≤ n then M else m) = n * ((M + m) * (1/2)) + (M - m) * (1/2) * |n| := by
  split_ifs with h
  · rw [abs_of_nonneg h]
    ring
  · rw [abs_of_neg (lt_of_not_le h)]
    ring

/-- The minimizing corner of a box with respect to a plane. -/
theorem corner_low_spec (b : AABB) (pl : Plane) :
    (⟨if 0 ≤ pl.n.x then b.min.x else b.max.x,
      if 0 ≤ pl.n.y then b.min.y else b.max.y,
      if 0 ≤ pl.n.z then b.min.z else b.max.z⟩ : Vec3) ∈ b.corners ∧
    pl.distanceToPoint
        ⟨if 0 ≤ pl.n.x then b.min.x else b.max.x,
         if 0 ≤ pl.n.y then b.min.y else b.max.y,
         if 0 ≤ pl.n.z then b.min.z else b.max.z⟩ =
      b.planeCenterDist pl - b.planeExtent pl := by
  constructor
  · split_ifs <;> simp [AABB.corners]
  · simp only [Plane.distanceToPoint, AABB.planeCenterDist, AABB.planeExtent, AABB.center,
      AABB.halfDiagonal, Vec3.dot, Vec3.add, Vec3.sub, Vec3.scale]
    rw [pick_low, pick_low, pick_low]
    ring

/-- The maximizing corner of a box with respect to a plane. -/
theorem corner_high_spec (b : AABB) (pl : Plane) :
    (⟨if 0 ≤ pl.n.x then b.max.x else b.min.x,
      if 0 ≤ pl.n.y then b.max.y else b.min.y,
      if 0 ≤ pl.n.z then b.max.z else b.min.z⟩ : Vec3) ∈ b.corners ∧
    pl.distanceToPoint
        ⟨if 0 ≤ pl.n.x then b.max.x else b.min.x,
         if 0 ≤ pl.n.y then b.max.y else b.min.y,
         if 0 ≤ pl.n.z then b.max.z else b.min.z⟩ =
      b.planeCenterDist pl + b.planeExtent pl := by
  constructor
  · split_ifs <;> simp [AABB.corners]
  · simp only [Plane.distanceToPoint, AABB.planeCenterDist, AABB.planeExtent, AABB.center,
      AABB.halfDiagonal, Vec3.dot, Vec3.add, Vec3.sub, Vec3.scale]
    rw [pick_high, pick_high, pick_high]
    ring

/-- If some plane in the list classifies the box `OUTSIDE`, the loop
returns `OUTSIDE`. -/
theorem aabbIntersectLoop_outside_of_exists (b : AABB) :
    ∀ (ps : List Plane) (flag : Bool),
      (∃ pl ∈ ps, b.planeIntersect pl = Intersection.OUTSIDE) →
      aabbIntersectLoop b ps flag = Intersection.OUTSIDE := by
  intro ps
  induction ps with
  | nil => intro flag h; rcases h with ⟨pl, hmem, _⟩; cases hmem
  | cons p ps ih =>
    intro flag h
    rcases h with ⟨pl, hmem, hout⟩
    rcases List.mem_cons.mp hmem with rfl | hmem
    · simp [aabbIntersectLoop, hout]
    · cases hp : b.planeIntersect p with
      | OUTSIDE => simp [aabbIntersectLoop, hp]
      | INSIDE => simpa [aabbIntersectLoop, hp] using ih flag ⟨pl, hmem, hout⟩
      | INTERSECTING => simpa [aabbIntersectLoop, hp] using ih true ⟨pl, hmem, hout⟩

/-- If every plane in the list classifies the box `INSIDE`, the loop
returns `INSIDE` when the sticky flag is clear. -/
theorem aabbIntersectLoop_inside_of_all (b : AABB) :
    ∀ (ps : List Plane) (flag : Bool),
      (∀ pl ∈ ps, b.planeIntersect pl = Intersection.INSIDE) →
      aabbIntersectLoop b ps flag =
        (if flag then Intersection.INTERSECTING else Intersection.INSIDE) := by
  intro ps
  induction ps with
  | nil => intro flag _; rfl
  | cons p ps ih =>
    intro flag h
    have hp : b.planeIntersect p = Intersection.INSIDE := h p (List.mem_cons_self p ps)
    simp only [aabbIntersectLoop, hp]
    exact ih flag fun pl hpl => h pl (List.mem_cons_of_mem p hpl)

/-- If the loop returns `OUTSIDE`, some plane in the list classified the
box `OUTSIDE`. -/
theorem aabbIntersectLoop_outside_imp (b : AABB) :
    ∀ (ps : List Plane) (flag : Bool),
      aabbIntersectLoop b ps flag = Intersection.OUTSIDE →
      ∃ pl ∈ ps, b.planeIntersect pl = Intersection.OUTSIDE := by
  intro ps
  induction ps with
  | nil =>
    intro flag h
    by_cases hf : flag = true <;> simp [aabbIntersectLoop, hf] at h
  | cons p ps ih =>
    intro flag h
    cases hp : b.planeIntersect p with
    | OUTSIDE => exact ⟨p, List.mem_cons_self p ps, hp⟩
    | INSIDE =>
      rw [aabbIntersectLoop, hp] at h
      rcases ih flag h with ⟨pl, hmem, hout⟩
      exact ⟨pl, List.mem_cons_of_mem p hmem, hout⟩
    | INTERSECTING =>
      rw [aabbIntersectLoop, hp] at h
      rcases ih true h with ⟨pl, hmem, hout⟩
      exact ⟨pl, List.mem_cons_of_mem p hmem, hout⟩

/-- Once the sticky `intersecting` flag is set, the loop can no longer
return `INSIDE`. -/
theorem aabbIntersectLoop_sticky_ne_inside (b : AABB) :
    ∀ ps : List Plane, aabbIntersectLoop b ps true ≠ Intersection.INSIDE := by
  intro ps
  induction ps with
  | nil => simp [aabbIntersectLoop]
  | cons q qs ihq =>
    intro h
    cases hq : b.planeIntersect q with
    | OUTSIDE => rw [aabbIntersectLoop, hq] at h; cases h
    | INSIDE => rw [aabbIntersectLoop, hq] at h; exact ihq h
    | INTERSECTING => rw [aabbIntersectLoop, hq] at h; exact ihq h

/-- If the loop returns `INSIDE`, every plane in the list classified the
box `INSIDE`. -/
theorem aabbIntersectLoop_inside_imp (b : AABB) :
    ∀ (ps : List Plane) (flag : Bool),
      aabbIntersectLoop b ps flag = Intersection.INSIDE →
      ∀ pl ∈ ps, b.planeIntersect pl = Intersection.INSIDE := by
  intro ps
  induction ps with
  | nil => intro flag _ pl hmem; cases hmem
  | cons p ps ih =>
    intro flag h pl hmem
    cases hp : b.planeIntersect p with
    | OUTSIDE => rw [aabbIntersectLoop, hp] at h; cases h
    | INSIDE =>
      rw [aabbIntersectLoop, hp] at h
      rcases List.mem_cons.mp hmem with rfl | hmem
      · exact hp
      · exact ih flag h pl hmem
    | INTERSECTING =>
      rw [aabbIntersectLoop, hp] at h
      exact absurd h (aabbIntersectLoop_sticky_ne_inside b ps)

/-- A box whose corners all lie strictly inside a plane's negative
half-space classifies `INSIDE` against that plane. -/
theorem planeIntersect_inside_of_corners (b : AABB) (pl : Plane)
    (h : ∀ q ∈ b.corners, pl.distanceToPoint q < 0) :
    b.planeIntersect pl = Intersection.INSIDE := by
  have hlow := corner_low_spec b pl
  have hhigh := corner_high_spec b pl
  have h1 : b.planeCenterDist pl - b.planeExtent pl < 0 := by
    rw [← hlow.2]
    exact h _ hlow.1
  have h2 : b.planeCenterDist pl + b.planeExtent pl < 0 := by
    rw [← hhigh.2]
    exact h _ hhigh.1
  rw [AABB.planeIntersect_eq, if_neg (by linarith), if_pos h2]

/-- A box whose corners all lie strictly beyond a plane classifies
`OUTSIDE` against that plane. -/
theorem planeIntersect_outside_of_corners (b : AABB) (pl : Plane)
    (h : ∀ q ∈ b.corners, 0 < pl.distanceToPoint q) :
    b.planeIntersect pl = Intersection.OUTSIDE := by
  have hlow := corner_low_spec b pl
  have h1 : 0 < b.planeCenterDist pl - b.planeExtent pl := by
    rw [← hlow.2]
    exact h _ hlow.1
  rw [AABB.planeIntersect_eq, if_pos h1]

/-- An `INSIDE` answer of `planeIntersect` forces `s + e < 0`. -/
theorem planeIntersect_eq_inside_imp (b : AABB) (pl : Plane) :
    b.planeIntersect pl = Intersection.INSIDE →
      b.planeCenterDist pl + b.planeExtent pl < 0 := by
  rw [AABB.planeIntersect_eq]
  split_ifs with h1 h2
  · intro h; cases h
  · intro _; exact h2
  · intro h; cases h

/-- An `OUTSIDE` answer of `planeIntersect` forces `s - e > 0`. -/
theorem planeIntersect_eq_outside_imp (b : AABB) (pl : Plane) :
    b.planeIntersect pl = Intersection.OUTSIDE →
      0 < b.planeCenterDist pl - b.planeExtent pl := by
  rw [AABB.planeIntersect_eq]
  split_ifs with h1 h2
  · intro _; exact h1
  · intro h; cases h
  · intro h; cases h

/-- When `planeIntersect` answers `INSIDE`, every point of the box is
strictly inside the plane's negative half-space. -/
theorem planeIntersect_inside_sound (b : AABB) (pl : Plane)
    (h : b.planeIntersect pl = Intersection.INSIDE) (p : Vec3)
    (hp : b.containsPoint p = true) : pl.distanceToPoint p < 0 := by
  have hb := AABB.dist_bounds_of_mem b pl p hp
  have h2 := planeIntersect_eq_inside_imp b pl h
  linarith [hb.2]

/-- When `planeIntersect` answers `OUTSIDE`, every point of the box is
strictly beyond the plane. -/
theorem planeIntersect_outside_sound (b : AABB) (pl : Plane)
    (h : b.planeIntersect pl = Intersection.OUTSIDE) (p : Vec3)
    (hp : b.containsPoint p = true) : 0 < pl.distanceToPoint p := by
  have hb := AABB.dist_bounds_of_mem b pl p hp
  have h1 := planeIntersect_eq_outside_imp b pl h
  linarith [hb.1]

/-- C5: conservativeness and completeness of `Frustum.aabbIntersect`.
A box fully (strictly) enclosed by all six half-spaces — witnessed on
its eight corners, which for an affine distance function is equivalent
to enclosure of the whole box — classifies `INSIDE`; a box whose eight
corners all lie strictly beyond a single frustum plane classifies
`OUTSIDE`; and the function never reports `INSIDE` or `OUTSIDE`
incorrectly: `INSIDE` implies every point of the box is strictly inside
every plane's negative half-space, and `OUTSIDE` implies every point of
the box lies strictly beyond some plane, hence outside the frustum
volume. -/
theorem C5_aabbIntersect_conservative (f : Frustum) (b : AABB) :
    ((∀ pl ∈ f.planes, ∀ q ∈ b.corners, pl.distanceToPoint q < 0) →
      f.aabbIntersect b = Intersection.INSIDE) ∧
    ((∃ pl ∈ f.planes, ∀ q ∈ b.corners, 0 < pl.distanceToPoint q) →
      f.aabbIntersect b = Intersection.OUTSIDE) ∧
    (f.aabbIntersect b = Intersection.INSIDE →
      ∀ p, b.containsPoint p = true → ∀ pl ∈ f.planes, pl.distanceToPoint p < 0) ∧
    (f.aabbIntersect b = Intersection.OUTSIDE →
      ∀ p, b.containsPoint p = true → ∃ pl ∈ f.planes, 0 < pl.distanceToPoint p) := by
  refine ⟨?_, ?_, ?_, ?_⟩
  · intro h
    unfold Frustum.aabbIntersect
    rw [aabbIntersectLoop_inside_of_all b f.planes false]
    · rfl
    · intro pl hpl
      exact planeIntersect_inside_of_corners b pl (h pl hpl)
  · intro h
    rcases h with ⟨pl, hpl, hq⟩
    unfold Frustum.aabbIntersect
    exact aabbIntersectLoop_outside_of_exists b f.planes false
      ⟨pl, hpl, planeIntersect_outside_of_corners b pl hq⟩
  · intro h p hp pl hpl
    have hall := aabbIntersectLoop_inside_imp b f.planes false h pl hpl
    exact planeIntersect_inside_sound b pl hall p hp
  · intro h p hp
    rcases aabbIntersectLoop_outside_imp b f.planes false h with ⟨pl, hpl, hout⟩
    exact ⟨pl, hpl, planeIntersect_outside_sound b pl hout p hp⟩

/-- Witness for C5: the axis-aligned box frustum `[0,10]³` and the box
`[1,2]³` strictly inside it is classified `INSIDE`. -/
theorem C5_aabbIntersect_conservative_witness :
    Frustum.aabbIntersect
        ⟨⟨⟨-1, 0, 0⟩, 0⟩, ⟨⟨1, 0, 0⟩, -10⟩, ⟨⟨0, -1, 0⟩, 0⟩,
         ⟨⟨0, 1, 0⟩, -10⟩, ⟨⟨0, 0, -1⟩, 0⟩, ⟨⟨0, 0, 1⟩, -10⟩⟩
        ⟨⟨1, 1, 1⟩, ⟨2, 2, 2⟩⟩ = Intersection.INSIDE := by
  refine (C5_aabbIntersect_conservative _ _).1 ?_
  intro pl hpl q hq
  simp only [Frustum.planes, List.mem_cons, List.not_mem_nil, or_false] at hpl
  simp only [AABB.corners, List.flatMap_cons, List.flatMap_nil, List.map_cons, List.map_nil,
    List.append_nil, List.mem_cons, List.not_mem_nil, or_false, List.mem_append] at hq
  simp only [or_assoc] at hq
  rcases hpl with rfl | rfl | rfl | rfl | rfl | rfl <;>
    (rcases hq with rfl | rfl | rfl | rfl | rfl | rfl | rfl | rfl <;>
      norm_num [Plane.distanceToPoint])

/-- A vertex classifies as strictly outside (`1`) exactly when its
signed distance exceeds the on-plane band `0.001`. -/
theorem Plane.classify_eq_one_iff (pl : Plane) (v : Vec3) :
    pl.classify v = 1 ↔ 1/1000 < pl.distanceToPoint v := by
  unfold Plane.classify
  dsimp only []
  split_ifs with h1 h2
  · exact iff_of_false (by norm_num) (by linarith [h1.2])
  · refine iff_of_true rfl ?_
    rcases not_and_or.mp h1 with h | h
    · exact absurd h2 h
    · exact lt_of_not_le h
  · exact iff_of_false (by norm_num) (fun hlt => h2 (by linarith))

/-- The intersection vertex inserted by the clipper lies exactly on the
plane, for every square-root function (the normalization factor of the
segment direction cancels out of the plane equation). -/
theorem Plane.intersectLine_dist (sqrt : ℚ → ℚ) (pl : Plane) (p1 p2 q : Vec3)
    (h : pl.intersectLine sqrt p1 p2 = some q) : pl.distanceToPoint q = 0 := by
  unfold Plane.intersectLine at h
  set u := Vec3.normalize sqrt (Vec3.sub p2 p1) with hu
  dsimp only [Vec4.dot] at h
  simp only [mul_zero, add_zero, mul_one] at h
  split at h
  · cases h
  · rename_i hne
    injection h with h
    subst h
    unfold Plane.distanceToPoint Vec3.add Vec3.scale
    dsimp only []
    field_simp
    ring

/-- Source method `clipConvexPolygon` reports "fully clipped" exactly when every input
vertex is strictly beyond the on-plane band. -/
theorem Plane.clip_eq_none_iff (sqrt : ℚ → ℚ) (pl : Plane) (vs : List Vec3) :
    pl.clipConvexPolygon sqrt vs = none ↔ ∀ v ∈ vs, 1/1000 < pl.distanceToPoint v := by
  unfold Plane.clipConvexPolygon
  dsimp only []
  split
  · rename_i hall
    simp only [List.all_eq_true, List.mem_map, decide_eq_true_eq] at hall
    refine iff_of_true rfl ?_
    intro v hv
    have := hall (v, pl.classify v) ⟨v, hv, rfl⟩
    exact (Plane.classify_eq_one_iff pl v).mp this
  · rename_i hall
    refine iff_of_false (by simp) ?_
    intro hforall
    apply hall
    simp only [List.all_eq_true, List.mem_map, decide_eq_true_eq]
    rintro c ⟨v, hv, rfl⟩
    exact (Plane.classify_eq_one_iff pl v).mpr (hforall v hv)

/-- Every vertex of a polygon returned by `clipConvexPolygon` has signed
distance at most the on-plane band `0.001`: kept vertices were not
classified strictly outside, and inserted vertices lie exactly on the
plane. -/
theorem Plane.clip_some_distance (sqrt : ℚ → ℚ) (pl : Plane) (vs out : List Vec3)
    (h : pl.clipConvexPolygon sqrt vs = some out) :
    ∀ w ∈ out, pl.distanceToPoint w ≤ 1/1000 := by
  unfold Plane.clipConvexPolygon at h
  dsimp only [] at h
  split at h
  · cases h
  · injection h with h
    subst h
    intro w hw
    rw [List.mem_flatMap] at hw
    rcases hw with ⟨pr, hpr, hwpr⟩
    obtain ⟨⟨pi, ci⟩, pj, cj⟩ := pr
    have hmem := List.of_mem_zip hpr
    obtain ⟨h1, _⟩ := hmem
    rw [List.mem_map] at h1
    rcases h1 with ⟨v, hv, hveq⟩
    have hci : ci = pl.classify pi := by
      have hfst : v = pi := congrArg Prod.fst hveq
      have hsnd : pl.classify v = ci := congrArg Prod.snd hveq
      rw [← hsnd, hfst]
    unfold Plane.clipPairStep at hwpr
    dsimp only [] at hwpr
    rw [List.mem_append] at hwpr
    rcases hwpr with hk | hins
    · split at hk
      · rename_i hcine
        rcases List.mem_singleton.mp hk with rfl
        rw [hci] at hcine
        by_contra hgt
        push_neg at hgt
        exact hcine ((Plane.classify_eq_one_iff pl w).mpr hgt)
      · cases hk
    · split at hins
      · split at hins
        · rename_i q hq
          rcases List.mem_singleton.mp hins with rfl
          rw [Plane.intersectLine_dist sqrt pl _ _ _ hq]
          norm_num
        · cases hins
      · cases hins

/-- C6 (amended): for every plane, vertex list and square-root function,
`clipConvexPolygon` returns "fully clipped" (`false`) if and only if
every input vertex has signed distance strictly greater than the
on-plane epsilon `0.001` (not merely `> 0`); and when it returns a
polygon, every returned vertex lies in the closed *negative* half-space
up to the band, i.e. has signed distance at most `+0.001` (not at least
`-0.001` — inside is the negative side in this codebase). -/
theorem C6_clipConvexPolygon_characterization (sqrt : ℚ → ℚ) (pl : Plane) (vs : List Vec3) :
    (pl.clipConvexPolygon sqrt vs = none ↔ ∀ v ∈ vs, 1/1000 < pl.distanceToPoint v) ∧
    (∀ out, pl.clipConvexPolygon sqrt vs = some out →
      ∀ w ∈ out, pl.distanceToPoint w ≤ 1/1000) :=
  ⟨Plane.clip_eq_none_iff sqrt pl vs, fun out h => Plane.clip_some_distance sqrt pl vs out h⟩

/-- Witness for C6: on the plane `x = 0` and the single all-inside
vertex `(-1,0,0)`, the clipper returns the vertex unchanged and the
theorem bounds its distance by the band. -/
theorem C6_clipConvexPolygon_characterization_witness :
    (Plane.mk ⟨1, 0, 0⟩ 0).distanceToPoint ⟨-1, 0, 0⟩ ≤ 1/1000 :=
  (C6_clipConvexPolygon_characterization (fun _ => 0) ⟨⟨1, 0, 0⟩, 0⟩ [⟨-1, 0, 0⟩]).2
    [⟨-1, 0, 0⟩]
    (by norm_num [Plane.clipConvexPolygon, Plane.classify, Plane.distanceToPoint,
      Plane.clipPairStep, List.rotate])
    ⟨-1, 0, 0⟩ (List.mem_singleton.mpr rfl)

/-- Counterexample to C6 as stated: on the plane `x = 0`, the input
`[(-1,0,0)]` is returned unchanged although its vertex has signed
distance `-1 < -0.001`, refuting "every returned vertex has distance
`≥ -epsilon`"; and the input `[(1/2000,0,0)]`, all of whose vertices
have distance `> 0`, is *not* fully clipped (the distance lies inside
the on-plane band `(0, 0.001]`), refuting the "if and only if every
input vertex has distance `> 0`" direction. -/
theorem C6_clip_claim_refuted :
    Plane.clipConvexPolygon (fun _ => 0) ⟨⟨1, 0, 0⟩, 0⟩ [⟨-1, 0, 0⟩] = some [⟨-1, 0, 0⟩] ∧
    ¬(-(1/1000) : ℚ) ≤ (Plane.mk ⟨1, 0, 0⟩ 0).distanceToPoint ⟨-1, 0, 0⟩ ∧
    Plane.clipConvexPolygon (fun _ => 0) ⟨⟨1, 0, 0⟩, 0⟩ [⟨1/2000, 0, 0⟩] =
      some [⟨1/2000, 0, 0⟩] ∧
    0 < (Plane.mk ⟨1, 0, 0⟩ 0).distanceToPoint ⟨1/2000, 0, 0⟩ := by
  refine ⟨?_, ?_, ?_, ?_⟩
  · norm_num [Plane.clipConvexPolygon, Plane.classify, Plane.distanceToPoint,
      Plane.clipPairStep, List.rotate]
  · norm_num [Plane.distanceToPoint]
  · norm_num [Plane.clipConvexPolygon, Plane.classify, Plane.distanceToPoint,
      Plane.clipPairStep, List.rotate]
  · norm_num [Plane.distanceToPoint]

/-- Merging via `AABB.merge` is associative (componentwise `min`/`max`). -/
theorem AABB.merge_assoc (a b c : AABB) :
    AABB.merge (AABB.merge a b) c = AABB.merge a (AABB.merge b c) := by
  simp [AABB.merge, Vec3.vmin, Vec3.vmax, min_assoc, max_assoc]

/-- Folding `merge` from a pre-merged seed factors the seed out of the
fold. -/
theorem AABB.foldl_merge_merge (a : AABB) :
    ∀ (l : List AABB) (b : AABB),
      l.foldl AABB.merge (AABB.merge a b) = AABB.merge a (l.foldl AABB.merge b) := by
  intro l
  induction l with
  | nil => intro b; rfl
  | cons c t ih =>
    intro b
    simp only [List.foldl_cons]
    rw [AABB.merge_assoc, ih]

/-- Merging a box into a box that already contains it is the identity. -/
theorem AABB.merge_eq_of_contains (a M : AABB) (h : AABB.containsBox M a = true) :
    AABB.merge a M = M := by
  obtain ⟨⟨a1, a2, a3⟩, a4, a5, a6⟩ := a
  obtain ⟨⟨m1, m2, m3⟩, m4, m5, m6⟩ := M
  simp only [AABB.containsBox, Bool.and_eq_true, decide_eq_true_eq] at h
  obtain ⟨⟨⟨⟨⟨h1, h2⟩, h3⟩, h4⟩, h5⟩, h6⟩ := h
  simp only [AABB.merge, Vec3.vmin, Vec3.vmax, AABB.mk.injEq, Vec3.mk.injEq]
  exact ⟨⟨min_eq_right h1, min_eq_right h2, min_eq_right h3⟩,
         max_eq_right h4, max_eq_right h5, max_eq_right h6⟩

/-- Characterization of the interior `updateBounds` child loop: the
children are all updated recursively, and the accumulated box is the
fold of `merge` over the children's new boxes seeded with the node's
*prior* box. -/
theorem updateBoundsLoop_spec :
    ∀ (cs : List Node) (a : AABB),
      (updateBoundsLoop a cs).2 = cs.map Node.updateBounds ∧
      (updateBoundsLoop a cs).1 =
        ((cs.map Node.updateBounds).map Node.aabb).foldl AABB.merge a := by
  intro cs
  induction cs with
  | nil => intro a; exact ⟨rfl, rfl⟩
  | cons c t ih =>
    intro a
    simp only [updateBoundsLoop, List.map_cons, List.foldl_cons]
    exact ⟨by rw [(ih _).1], by rw [(ih _).2]⟩

/-- C2 (amended): after `updateBounds()`, an interior node's AABB equals
the fold of `AABB.merge` over its children's freshly updated AABBs
*seeded with the node's prior AABB* (the source never resets the box to
empty before the loop).  Exact equality with the merge of the children's
updated AABBs therefore holds exactly when the prior AABB is already
contained in that merge — e.g. on the first update after construction,
when the prior box is the `createEmpty` sentinel — but not for an
arbitrary prior value.  `updateBounds` acts compositionally (each child
is updated by the same function), so this per-node statement covers
every interior node of every hierarchy. -/
theorem C2_interior_updateBounds_characterization (a : AABB) (cs : List Node) :
    (Node.updateBounds (.interior a cs)).aabb =
      ((cs.map Node.updateBounds).map Node.aabb).foldl AABB.merge a ∧
    (∀ c rest, cs = c :: rest →
      AABB.containsBox
          (((rest.map Node.updateBounds).map Node.aabb).foldl AABB.merge
            c.updateBounds.aabb) a = true →
      (Node.updateBounds (.interior a cs)).aabb =
        ((rest.map Node.updateBounds).map Node.aabb).foldl AABB.merge
          c.updateBounds.aabb) := by
  have hmain : (Node.updateBounds (.interior a cs)).aabb =
      ((cs.map Node.updateBounds).map Node.aabb).foldl AABB.merge a := by
    simp only [Node.updateBounds, Node.aabb]
    exact (updateBoundsLoop_spec cs a).2
  refine ⟨hmain, ?_⟩
  rintro c rest rfl hcont
  rw [hmain]
  simp only [List.map_cons, List.foldl_cons]
  rw [show AABB.merge a c.updateBounds.aabb =
        AABB.merge a c.updateBounds.aabb from rfl]
  rw [AABB.foldl_merge_merge]
  exact AABB.merge_eq_of_contains a _ hcont

/-- Counterexample to C2 as stated: an interior node whose prior AABB is
`[-10,10]³` with a single identity-transform leaf child whose vertices
span `[0,1]³`.  After `updateBounds()` the child's box is exactly
`[0,1]³`, but the interior node's box is the *merge of its stale prior
box with the child's box*, i.e. still `[-10,10]³` — not equal to the
merge of its children's freshly updated AABBs. -/
theorem C2_interior_keeps_stale_bounds :
    (Node.updateBounds (.leaf AABB.createEmpty
        ⟨⟨0, 0, 0⟩, ⟨0, 0, 0, 1⟩, ⟨1, 1, 1⟩, [⟨0, 0, 0⟩, ⟨1, 1, 1⟩]⟩ 7)).aabb =
      ⟨⟨0, 0, 0⟩, ⟨1, 1, 1⟩⟩ ∧
    (Node.updateBounds (.interior ⟨⟨-10, -10, -10⟩, ⟨10, 10, 10⟩⟩
        [.leaf AABB.createEmpty
          ⟨⟨0, 0, 0⟩, ⟨0, 0, 0, 1⟩, ⟨1, 1, 1⟩, [⟨0, 0, 0⟩, ⟨1, 1, 1⟩]⟩ 7])).aabb =
      ⟨⟨-10, -10, -10⟩, ⟨10, 10, 10⟩⟩ ∧
    ((⟨⟨-10, -10, -10⟩, ⟨10, 10, 10⟩⟩ : AABB) ≠ ⟨⟨0, 0, 0⟩, ⟨1, 1, 1⟩⟩) := by
  refine ⟨?_, ?_, ?_⟩
  · norm_num [Node.updateBounds, Node.aabb, MeshInst.updateBounds, meshBoundsLoop,
      Mat4.fromRotationTranslationScale, Vec3.transformMat4, Vec3.vmin, Vec3.vmax,
      numberMinValue, numberMaxValue, min_def, max_def]
  · norm_num [Node.updateBounds, updateBoundsLoop, Node.aabb, MeshInst.updateBounds,
      meshBoundsLoop, Mat4.fromRotationTranslationScale, Vec3.transformMat4, Vec3.vmin,
      Vec3.vmax, AABB.merge, numberMinValue, numberMaxValue, min_def, max_def]
  · intro h
    have := congrArg (fun b => b.max.x) h
    norm_num at this

/-- Witness for C2 (amended): with prior box `[1/4,1/2]³` contained in
the child's updated box `[0,1]³`, the interior node's updated box equals
the merge (here: the child's box itself). -/
theorem C2_interior_updateBounds_characterization_witness :
    (Node.updateBounds (.interior ⟨⟨1/4, 1/4, 1/4⟩, ⟨1/2, 1/2, 1/2⟩⟩
        [.leaf AABB.createEmpty
          ⟨⟨0, 0, 0⟩, ⟨0, 0, 0, 1⟩, ⟨1, 1, 1⟩, [⟨0, 0, 0⟩, ⟨1, 1, 1⟩]⟩ 7])).aabb =
      ((([] : List Node).map Node.updateBounds).map Node.aabb).foldl AABB.merge
        (Node.updateBounds (.leaf AABB.createEmpty
          ⟨⟨0, 0, 0⟩, ⟨0, 0, 0, 1⟩, ⟨1, 1, 1⟩, [⟨0, 0, 0⟩, ⟨1, 1, 1⟩]⟩ 7)).aabb := by
  refine (C2_interior_updateBounds_characterization ⟨⟨1/4, 1/4, 1/4⟩, ⟨1/2, 1/2, 1/2⟩⟩
      [.leaf AABB.createEmpty
        ⟨⟨0, 0, 0⟩, ⟨0, 0, 0, 1⟩, ⟨1, 1, 1⟩, [⟨0, 0, 0⟩, ⟨1, 1, 1⟩]⟩ 7]).2
    _ [] rfl ?_
  norm_num [Node.updateBounds, Node.aabb, MeshInst.updateBounds, meshBoundsLoop,
    Mat4.fromRotationTranslationScale, Vec3.transformMat4, Vec3.vmin, Vec3.vmax,
    numberMinValue, numberMaxValue, min_def, max_def, AABB.containsBox]

/-- Membership in the leaves of a sibling list decomposes to membership
in some sibling's leaves. -/
theorem mem_leavesList_iff {x : Node} :
    ∀ cs : List Node, x ∈ leavesList cs ↔ ∃ c ∈ cs, x ∈ c.leaves := by
  intro cs
  induction cs with
  | nil => simp [leavesList]
  | cons c t ih =>
    simp only [leavesList, List.mem_append, ih]
    constructor
    · rintro (h | ⟨d, hd, hx⟩)
      · exact ⟨c, List.mem_cons_self c t, h⟩
      · exact ⟨d, List.mem_cons_of_mem c hd, hx⟩
    · rintro ⟨d, hd, hx⟩
      rcases List.mem_cons.mp hd with rfl | hd
      · exact Or.inl hx
      · exact Or.inr ⟨d, hd, hx⟩

/-- Box containment is reflexive. -/
theorem AABB.containsBox_refl (a : AABB) : AABB.containsBox a a = true := by
  simp [AABB.containsBox]

/-- Box containment is transitive. -/
theorem AABB.containsBox_trans (a b c : AABB) (h1 : AABB.containsBox a b = true)
    (h2 : AABB.containsBox b c = true) : AABB.containsBox a c = true := by
  simp only [AABB.containsBox, Bool.and_eq_true, decide_eq_true_eq] at *
  obtain ⟨⟨⟨⟨⟨g1, g2⟩, g3⟩, g4⟩, g5⟩, g6⟩ := h1
  obtain ⟨⟨⟨⟨⟨k1, k2⟩, k3⟩, k4⟩, k5⟩, k6⟩ := h2
  refine ⟨⟨⟨⟨⟨?_, ?_⟩, ?_⟩, ?_⟩, ?_⟩, ?_⟩ <;> linarith

/-- A point of a contained box is a point of the containing box. -/
theorem AABB.containsBox_point (a b : AABB) (p : Vec3)
    (hab : AABB.containsBox a b = true) (hp : b.containsPoint p = true) :
    a.containsPoint p = true := by
  rw [AABB.containsPoint_iff] at *
  simp only [AABB.containsBox, Bool.and_eq_true, decide_eq_true_eq] at hab
  obtain ⟨⟨⟨⟨⟨g1, g2⟩, g3⟩, g4⟩, g5⟩, g6⟩ := hab
  obtain ⟨⟨p1, p2⟩, ⟨p3, p4⟩, p5, p6⟩ := hp
  refine ⟨⟨?_, ?_⟩, ⟨?_, ?_⟩, ?_, ?_⟩ <;> linarith

mutual

/-- Everything collected by the visibility traversal is a leaf of the
traversed subtree. -/
theorem append_subset_leaves (f : Frustum) :
    ∀ (da : Bool) (t : Node) (x : Node), x ∈ t.appendVisibleSet f da → x ∈ t.leaves
  | da, .leaf a m i, x => by
    intro hx
    unfold Node.appendVisibleSet at hx
    unfold Node.leaves
    split at hx
    · exact hx
    · split at hx
      · cases hx
      · exact hx
  | da, .interior a cs, x => by
    intro hx
    unfold Node.appendVisibleSet at hx
    unfold Node.leaves
    split at hx
    · exact appendList_subset_leaves f true cs x hx
    · split at hx
      · cases hx
      · exact appendList_subset_leaves f true cs x hx
      · exact appendList_subset_leaves f false cs x hx

/-- Sibling-list version of `append_subset_leaves`. -/
theorem appendList_subset_leaves (f : Frustum) :
    ∀ (da : Bool) (cs : List Node) (x : Node), x ∈ appendVisibleList f da cs → x ∈ leavesList cs
  | _, [], x => by intro hx; cases hx
  | da, c :: t, x => by
    intro hx
    unfold appendVisibleList at hx
    unfold leavesList
    rcases List.mem_append.mp hx with h | h
    · exact List.mem_append_left _ (append_subset_leaves f da c x h)
    · exact List.mem_append_right _ (appendList_subset_leaves f da t x h)

end

mutual

/-- With the `drawAll` flag set, the traversal collects every leaf. -/
theorem leaves_subset_append_true (f : Frustum) :
    ∀ (t : Node) (x : Node), x ∈ t.leaves → x ∈ t.appendVisibleSet f true
  | .leaf a m i, x => by
    intro hx
    unfold Node.leaves at hx
    unfold Node.appendVisibleSet
    simpa using hx
  | .interior a cs, x => by
    intro hx
    unfold Node.leaves at hx
    unfold Node.appendVisibleSet
    simpa using leavesList_subset_appendList_true f cs x hx

/-- Sibling-list version of `leaves_subset_append_true`. -/
theorem leavesList_subset_appendList_true (f : Frustum) :
    ∀ (cs : List Node) (x : Node), x ∈ leavesList cs → x ∈ appendVisibleList f true cs
  | [], x => by intro hx; cases hx
  | c :: t, x => by
    intro hx
    unfold leavesList at hx
    unfold appendVisibleList
    rcases List.mem_append.mp hx with h | h
    · exact List.mem_append_left _ (leaves_subset_append_true f c x h)
    · exact List.mem_append_right _ (leavesList_subset_appendList_true f t x h)

end

mutual

/-- Under the hierarchy invariant, a node's box contains the box of each
of its leaves. -/
theorem boundsOK_contains_leaf :
    ∀ (t : Node) (x : Node), t.boundsOK = true → x ∈ t.leaves →
      AABB.containsBox t.aabb x.aabb = true
  | .leaf a m i, x => by
    intro _ hx
    unfold Node.leaves at hx
    rcases List.mem_singleton.mp hx with rfl
    exact AABB.containsBox_refl _
  | .interior a cs, x => by
    intro hok hx
    unfold Node.boundsOK at hok
    unfold Node.leaves at hx
    exact boundsOKList_contains_leaf cs a x hok hx

/-- Sibling-list version of `boundsOK_contains_leaf`. -/
theorem boundsOKList_contains_leaf :
    ∀ (cs : List Node) (a : AABB) (x : Node), boundsOKList a cs = true →
      x ∈ leavesList cs → AABB.containsBox a x.aabb = true
  | [], a, x => by intro _ hx; cases hx
  | c :: t, a, x => by
    intro hok hx
    unfold boundsOKList at hok
    simp only [Bool.and_eq_true] at hok
    obtain ⟨⟨hca, hcok⟩, htok⟩ := hok
    unfold leavesList at hx
    rcases List.mem_append.mp hx with h | h
    · exact AABB.containsBox_trans a c.aabb x.aabb hca (boundsOK_contains_leaf c x hcok h)
    · exact boundsOKList_contains_leaf t a x htok h

end

/-- A box containing a point of the (closed) frustum volume is never
classified `OUTSIDE`. -/
theorem aabbIntersect_ne_outside_of_point (f : Frustum) (b : AABB) (p : Vec3)
    (hp : b.containsPoint p = true) (hin : f.containsPt p) :
    f.aabbIntersect b ≠ Intersection.OUTSIDE := by
  intro h
  unfold Frustum.aabbIntersect at h
  rcases aabbIntersectLoop_outside_imp b f.planes false h with ⟨pl, hpl, hout⟩
  exact absurd (hin pl hpl) (not_le.mpr (planeIntersect_outside_sound b pl hout p hp))

mutual

/-- Inclusion half of the visibility-correctness property: under the
hierarchy invariant, a leaf whose box contains a point of the frustum
volume is collected by the traversal started with `drawAll = false`. -/
theorem visibleInc (f : Frustum) (p : Vec3) (hfp : f.containsPt p) :
    ∀ (t : Node) (x : Node), t.boundsOK = true → x ∈ t.leaves →
      x.aabb.containsPoint p = true → x ∈ t.appendVisibleSet f false
  | .leaf a m i, x => by
    intro hok hx hp
    unfold Node.leaves at hx
    rcases List.mem_singleton.mp hx with rfl
    have hne := aabbIntersect_ne_outside_of_point f a p hp hfp
    unfold Node.appendVisibleSet
    simp only [Bool.false_eq_true, if_false]
    cases hfa : f.aabbIntersect a with
    | OUTSIDE => exact absurd hfa hne
    | INSIDE => simp
    | INTERSECTING => simp
  | .interior a cs, x => by
    intro hok hx hp
    unfold Node.boundsOK at hok
    unfold Node.leaves at hx
    have hcont : AABB.containsBox a x.aabb = true := boundsOKList_contains_leaf cs a x hok hx
    have hpa : a.containsPoint p = true := AABB.containsBox_point a x.aabb p hcont hp
    have hne := aabbIntersect_ne_outside_of_point f a p hpa hfp
    unfold Node.appendVisibleSet
    simp only [Bool.false_eq_true, if_false]
    cases hfa : f.aabbIntersect a with
    | OUTSIDE => exact absurd hfa hne
    | INSIDE => exact leavesList_subset_appendList_true f cs x hx
    | INTERSECTING => exact visibleIncList f p hfp cs a x hok hx hp

/-- Sibling-list version of `visibleInc`. -/
theorem visibleIncList (f : Frustum) (p : Vec3) (hfp : f.containsPt p) :
    ∀ (cs : List Node) (a : AABB) (x : Node), boundsOKList a cs = true →
      x ∈ leavesList cs → x.aabb.containsPoint p = true →
      x ∈ appendVisibleList f false cs
  | [], a, x => by intro _ hx _; cases hx
  | c :: t, a, x => by
    intro hok hx hp
    unfold boundsOKList at hok
    simp only [Bool.and_eq_true] at hok
    obtain ⟨⟨hca, hcok⟩, htok⟩ := hok
    unfold leavesList at hx
    unfold appendVisibleList
    rcases List.mem_append.mp hx with h | h
    · exact List.mem_append_left _ (visibleInc f p hfp c x hcok h hp)
    · exact List.mem_append_right _ (visibleIncList f p hfp t a x htok h hp)

end

mutual

/-- Predicate `hasLeafId` decides membership of an identity among the leaf
identities of a subtree. -/
theorem hasLeafId_iff_mem :
    ∀ (t : Node) (i : Nat), t.hasLeafId i = true ↔ i ∈ t.leafIds
  | .leaf a m j, i => by
    unfold Node.hasLeafId Node.leafIds Node.leaves Node.leafId
    simp
  | .interior a cs, i => by
    unfold Node.hasLeafId Node.leafIds Node.leaves
    exact hasLeafIdList_iff_mem cs i

/-- Sibling-list version of `hasLeafId_iff_mem`. -/
theorem hasLeafIdList_iff_mem :
    ∀ (cs : List Node) (i : Nat),
      hasLeafIdList i cs = true ↔ i ∈ (leavesList cs).map Node.leafId
  | [], i => by
    unfold hasLeafIdList leavesList
    simp
  | c :: t, i => by
    unfold hasLeafIdList leavesList
    rw [List.map_append]
    simp only [Bool.or_eq_true, List.mem_append]
    have h1 := hasLeafId_iff_mem c i
    have h2 := hasLeafIdList_iff_mem t i
    unfold Node.leafIds at h1
    rw [h1, h2]

end

mutual

/-- A culled identity belongs to the subtree's leaf identities. -/
theorem culled_imp_hasId (f : Frustum) :
    ∀ (t : Node) (i : Nat), t.culled f i = true → i ∈ t.leafIds
  | .leaf a m j, i => by
    intro hc
    unfold Node.culled at hc
    simp only [Bool.and_eq_true, beq_iff_eq] at hc
    unfold Node.leafIds Node.leaves Node.leafId
    simp [hc.2]
  | .interior a cs, i => by
    intro hc
    unfold Node.culled at hc
    unfold Node.leafIds Node.leaves
    cases hfa : f.aabbIntersect a with
    | OUTSIDE =>
      rw [hfa] at hc
      exact (hasLeafIdList_iff_mem cs i).mp hc
    | INSIDE => rw [hfa] at hc; cases hc
    | INTERSECTING =>
      rw [hfa] at hc
      exact culledList_imp_hasId f cs i hc

/-- Sibling-list version of `culled_imp_hasId`. -/
theorem culledList_imp_hasId (f : Frustum) :
    ∀ (cs : List Node) (i : Nat),
      culledList f i cs = true → i ∈ (leavesList cs).map Node.leafId
  | [], i => by intro hc; cases hc
  | c :: t, i => by
    intro hc
    unfold culledList at hc
    unfold leavesList
    rw [List.map_append]
    rcases (Bool.or_eq_true _ _).mp hc with h | h
    · exact List.mem_append_left _ (culled_imp_hasId f c i h)
    · exact List.mem_append_right _ (culledList_imp_hasId f t i h)

end

mutual

/-- Exclusion half of the visibility-correctness property: an identity
that is classified `OUTSIDE` (on its own box or on an evaluated
ancestor's box) during the traversal does not occur among the collected
leaves' identities, provided leaf identities are distinct. -/
theorem culledNode_excluded (f : Frustum) :
    ∀ (t : Node) (i : Nat), t.leafIds.Nodup → t.culled f i = true →
      i ∉ (t.appendVisibleSet f false).map Node.leafId
  | .leaf a m j, i => by
    intro hnd hc hmem
    unfold Node.culled at hc
    simp only [Bool.and_eq_true, beq_iff_eq] at hc
    obtain ⟨hout, rfl⟩ := hc
    unfold Node.appendVisibleSet at hmem
    rw [hout] at hmem
    simp at hmem
  | .interior a cs, i => by
    intro hnd hc hmem
    unfold Node.culled at hc
    unfold Node.appendVisibleSet at hmem
    simp only [Bool.false_eq_true, if_false] at hmem
    cases hfa : f.aabbIntersect a with
    | OUTSIDE =>
      rw [hfa] at hmem
      simp at hmem
    | INSIDE => rw [hfa] at hc; cases hc
    | INTERSECTING =>
      rw [hfa] at hc hmem
      unfold Node.leafIds Node.leaves at hnd
      exact culledList_excluded f cs i hnd hc hmem

/-- Sibling-list version of `culledNode_excluded`. -/
theorem culledList_excluded (f : Frustum) :
    ∀ (cs : List Node) (i : Nat), ((leavesList cs).map Node.leafId).Nodup →
      culledList f i cs = true →
      i ∉ (appendVisibleList f false cs).map Node.leafId
  | [], i => by intro _ hc _; cases hc
  | c :: t, i => by
    intro hnd hc hmem
    unfold culledList at hc
    unfold appendVisibleList at hmem
    rw [leavesList, List.map_append, List.nodup_append] at hnd
    obtain ⟨n1, n2, hdisj⟩ := hnd
    rw [List.map_append, List.mem_append] at hmem
    rcases (Bool.or_eq_true _ _).mp hc with hcc | hct
    · rcases hmem with hm | hm
      · exact culledNode_excluded f c i n1 hcc hm
      · have hIc : i ∈ c.leaves.map Node.leafId := culled_imp_hasId f c i hcc
        have hIr : i ∈ (leavesList t).map Node.leafId := by
          rcases List.mem_map.mp hm with ⟨x, hx, rfl⟩
          exact List.mem_map_of_mem _ (appendList_subset_leaves f false t x hx)
        exact hdisj hIc hIr
    · rcases hmem with hm | hm
      · have hIc : i ∈ c.leaves.map Node.leafId := by
          rcases List.mem_map.mp hm with ⟨x, hx, rfl⟩
          exact List.mem_map_of_mem _ (append_subset_leaves f false c x hx)
        have hIr : i ∈ (leavesList t).map Node.leafId := culledList_imp_hasId f t i hct
        exact hdisj hIc hIr
      · exact culledList_excluded f t i n2 hct hm

end

/-- C3: visibility-correctness of `appendVisibleSet(F, false, out)`.
For every hierarchy whose interior boxes contain their descendants'
boxes (`boundsOK`) and whose leaf identities are pairwise distinct (in
the source, leaves are distinct `MeshInstance` objects): (a) the output
contains every leaf whose AABB shares a point with the closed frustum
volume (the intersection of the six non-positive half-spaces); (b) the
output contains no leaf that itself — or any of whose evaluated
ancestors — is classified `OUTSIDE` by `F.aabbIntersect` during the
traversal (`Node.culled`). -/
theorem C3_appendVisibleSet_culling_correct (f : Frustum) (t : Node)
    (hok : t.boundsOK = true) (hnd : t.leafIds.Nodup) :
    (∀ x ∈ t.leaves, (∃ p, x.aabb.containsPoint p = true ∧ f.containsPt p) →
      x ∈ t.appendVisibleSet f false) ∧
    (∀ x : Node, t.culled f x.leafId = true → x ∉ t.appendVisibleSet f false) := by
  constructor
  · rintro x hx ⟨p, hp, hfp⟩
    exact visibleInc f p hfp t x hok hx hp
  · intro x hc hmem
    exact culledNode_excluded f t x.leafId hnd hc (List.mem_map_of_mem Node.leafId hmem)

/-- Witness for C3: a two-leaf hierarchy under the box frustum `[0,10]³`;
the leaf with box `[1,2]³` (identity 1) meets the frustum volume at
`(3/2, 3/2, 3/2)` and is collected by the traversal. -/
theorem C3_appendVisibleSet_culling_correct_witness :
    (Node.leaf ⟨⟨1, 1, 1⟩, ⟨2, 2, 2⟩⟩ ⟨⟨0, 0, 0⟩, ⟨0, 0, 0, 1⟩, ⟨1, 1, 1⟩, []⟩ 1) ∈
      Node.appendVisibleSet
        ⟨⟨⟨-1, 0, 0⟩, 0⟩, ⟨⟨1, 0, 0⟩, -10⟩, ⟨⟨0, -1, 0⟩, 0⟩,
         ⟨⟨0, 1, 0⟩, -10⟩, ⟨⟨0, 0, -1⟩, 0⟩, ⟨⟨0, 0, 1⟩, -10⟩⟩
        false
        (.interior ⟨⟨1, 1, 1⟩, ⟨21, 21, 21⟩⟩
          [.leaf ⟨⟨1, 1, 1⟩, ⟨2, 2, 2⟩⟩ ⟨⟨0, 0, 0⟩, ⟨0, 0, 0, 1⟩, ⟨1, 1, 1⟩, []⟩ 1,
           .leaf ⟨⟨20, 20, 20⟩, ⟨21, 21, 21⟩⟩ ⟨⟨0, 0, 0⟩, ⟨0, 0, 0, 1⟩, ⟨1, 1, 1⟩, []⟩ 2]) := by
  refine (C3_appendVisibleSet_culling_correct _ _ ?_ ?_).1 _ ?_ ⟨⟨3/2, 3/2, 3/2⟩, ?_, ?_⟩
  · norm_num [Node.boundsOK, boundsOKList, AABB.containsBox, Node.aabb]
  · norm_num [Node.leafIds, Node.leaves, leavesList, Node.leafId]
  · simp [Node.leaves, leavesList]
  · norm_num [AABB.containsPoint, Node.aabb]
  · intro pl hpl
    simp only [Frustum.planes, List.mem_cons, List.not_mem_nil, or_false] at hpl
    rcases hpl with rfl | rfl | rfl | rfl | rfl | rfl <;> norm_num [Plane.distanceToPoint]
